import Mathlib

/-!
Verification development for `tools/patch_rustdesk_android.py`, a one-shot
Android rebranding script.  Texts are modelled as `List Char`; the regex
substitutions used by the script (escaped literals, a word-boundary rule,
two non-greedy tag-span rules, one whitespace-flexible literal, and one
alternation of literals) are modelled by a small matcher covering exactly
those pattern shapes, with Python's leftmost non-overlapping `re.sub`
scanning discipline.  The filesystem is a list of (path, content) records;
paths are segment lists relative to the repository root.
-/

namespace Patch

abbrev Text := List Char

/-- Convert a string literal to the `List Char` text representation. -/
def str (s : String) : Text := s.toList

example : str "ab" = ['a', 'b'] := rfl

/-- The `PatchConfig` dataclass: nine configuration strings. -/
structure PatchConfig where
  old_package : Text
  new_package : Text
  old_app_name : Text
  new_app_name : Text
  old_scheme : Text
  new_scheme : Text
  old_service : Text
  new_service : Text
  accessibility_desc : Text
deriving DecidableEq, Repr

/-- `PatchConfig.mapping`: the "safe" global replacements (package, app name).
The Python source builds a dict literal, so if the two keys coincide the
second value wins and only one entry remains. -/
def PatchConfig.mapping (cfg : PatchConfig) : List (Text × Text) :=
  if cfg.old_package = cfg.old_app_name
  then [(cfg.old_package, cfg.new_app_name)]
  else [(cfg.old_package, cfg.new_package), (cfg.old_app_name, cfg.new_app_name)]

/-- The command-line defaults of `main`. -/
def defaultCfg : PatchConfig where
  old_package := str "com.carriez.flutter_hbb"
  new_package := str "com.celonis.work"
  old_app_name := str "RustDesk"
  new_app_name := str "ToddDesk"
  old_scheme := str "rustdesk"
  new_scheme := str "todddesk"
  old_service := str "InputService"
  new_service := str "ToddService"
  accessibility_desc := str "Made by Todd"

/-! ## The substitution engine -/

/-- Python's `\w` word character, restricted to the ASCII texts the tool
processes. -/
def isWordChar (c : Char) : Bool := c.isAlphanum || c = '_'

/-- A `\b` boundary between the previous character (none at text start) and
the first character of the candidate word. -/
def boundaryL (prev : Option Char) (c : Char) : Bool :=
  match prev with
  | none => isWordChar c
  | some p => isWordChar p != isWordChar c

/-- A `\b` boundary between the last character of the candidate word and the
rest of the text. -/
def boundaryR (c : Char) (t : Text) : Bool :=
  match t with
  | [] => isWordChar c
  | d :: _ => isWordChar c != isWordChar d

/-- Length of the maximal leading whitespace run (`\s+` is greedy, and in
every pattern of this script the following literal starts with a
non-whitespace character, so maximal munch is exact). -/
def wsRun : Text → Nat
  | [] => 0
  | c :: cs => if c.isWhitespace then wsRun cs + 1 else 0

/-- Boolean prefix test, recursing on the pattern first so that it reduces
definitionally whenever the pattern is a concrete literal, even when the
scanned text has a symbolic tail. -/
def pfxOf : Text → Text → Bool
  | [], _ => true
  | a :: as, t =>
    match t with
    | [] => false
    | b :: bs => if a = b then pfxOf as bs else false

/-- Non-greedy `.*?needle` with DOTALL: number of characters consumed up to
and including the first occurrence of `needle`, if any. -/
def spanTo (needle : Text) : Text → Option Nat
  | [] => none
  | c :: cs =>
    if pfxOf needle (c :: cs) then some needle.length
    else
      match spanTo needle cs with
      | some n => some (n + 1)
      | none => none

/-- First alternative of `(?:a1|a2|...)` that matches followed by the literal
`")` — Python's alternation tries alternatives left to right. -/
def findAlt (alts : List Text) (t : Text) : Option Text :=
  alts.find? (fun a => pfxOf (a ++ str "\")") t)

/-- The pattern shapes appearing in `build_rules`:
* `lit p` — `re.escape`d literal;
* `word w` — `\b w \b` (from `safe_word_replace`);
* `tag name` — `(<string\s+name="NAME">).*?(</string>)` with DOTALL,
  substituted as `\1 VALUE \2`;
* `logTag` — `"input\s+service"`;
* `loadLib alts` — `System\.loadLibrary\("(?:alt1|alt2|...)"\)`. -/
inductive Pat where
  | lit : Text → Pat
  | word : Text → Pat
  | tag : Text → Pat
  | logTag : Pat
  | loadLib : List Text → Pat
deriving DecidableEq, Repr

/-- A rule: a pattern plus its replacement text.  For `Pat.tag` the
replacement field is the value inserted between the retained tags. -/
structure Rule where
  pat : Pat
  repl : Text
deriving DecidableEq, Repr

/-- Attempt a match at the front of `t`, where `prev` is the character just
before the current position in the original text (`none` at the start).
Returns the number of characters consumed and the produced replacement. -/
def matchAt (r : Rule) (prev : Option Char) (t : Text) : Option (Nat × Text) :=
  match r.pat with
  | .lit p =>
    if !p.isEmpty && pfxOf p t then some (p.length, r.repl) else none
  | .word w =>
    if !w.isEmpty && pfxOf w t && boundaryL prev (w.headD ' ')
        && boundaryR (w.getLastD ' ') (t.drop w.length)
    then some (w.length, r.repl) else none
  | .tag name =>
    if pfxOf (str "<string") t then
      let t1 := t.drop 7
      let k := wsRun t1
      if k = 0 then none
      else
        let f2 := str "name=\"" ++ name ++ str "\">"
        if pfxOf f2 (t1.drop k) then
          match spanTo (str "</string>") ((t1.drop k).drop f2.length) with
          | some m =>
            some (7 + k + f2.length + m,
              t.take (7 + k) ++ f2 ++ r.repl ++ str "</string>")
          | none => none
        else none
    else none
  | .logTag =>
    if pfxOf (str "\"input") t then
      let t1 := t.drop 6
      let k := wsRun t1
      if k = 0 then none
      else if pfxOf (str "service\"") (t1.drop k) then
        some (6 + k + 8, r.repl)
      else none
    else none
  | .loadLib alts =>
    if pfxOf (str "System.loadLibrary(\"") t then
      match findAlt alts (t.drop 20) with
      | some a => some (20 + a.length + 2, r.repl)
      | none => none
    else none

/-- Every match of a rule starts with a fixed literal frame. -/
def Pat.frame : Pat → Text
  | .lit p => p
  | .word w => w
  | .tag _ => str "<string"
  | .logTag => str "\"input"
  | .loadLib _ => str "System.loadLibrary(\""

/-- One `pat.sub(repl, text)` pass, fuelled so that it reduces by `rfl`:
scan left to right; on a match emit the replacement and resume after the
consumed span (Python's non-overlapping scan), otherwise copy one character.
All patterns of this script consume at least one character, so the `n = 0`
guard is never taken; fuel `t.length` always suffices. -/
def subAuxF : Nat → Rule → Option Char → Text → Text
  | 0, _, _, t => t
  | _ + 1, _, _, [] => []
  | fuel + 1, r, prev, c :: cs =>
    match matchAt r prev (c :: cs) with
    | none => c :: subAuxF fuel r (some c) cs
    | some (n, out) =>
      if n = 0 then c :: subAuxF fuel r (some c) cs
      else out ++ subAuxF fuel r (some ((c :: cs).getD (n - 1) c)) ((c :: cs).drop n)

/-- Scan `t` with rule `r` starting with previous character `prev`. -/
def subFrom (r : Rule) (prev : Option Char) (t : Text) : Text :=
  subAuxF t.length r prev t

/-- `pat.sub(repl, text)` for one rule of the script. -/
def applyRule (r : Rule) (t : Text) : Text := subFrom r none t

/-- The `replace_in_file` loop body: apply every rule in order. -/
def applyRules (rs : List Rule) (t : Text) : Text :=
  rs.foldl (fun acc r => applyRule r acc) t

/-- `safe_word_replace`: compile `\b word \b`. -/
def safe_word_replace (w : Text) (repl : Text) : Rule := ⟨Pat.word w, repl⟩

/-- `build_rules`: the ordered rule list of the script. -/
def build_rules (cfg : PatchConfig) : List Rule :=
  (cfg.mapping.map fun pr => Rule.mk (Pat.lit pr.1) pr.2)
  ++ [⟨Pat.tag (str "accessibility_service_description"), cfg.accessibility_desc⟩,
      ⟨Pat.tag (str "app_name"), cfg.new_app_name⟩,
      ⟨Pat.lit (str "android:name=\"." ++ cfg.old_service ++ str "\""),
        str "android:name=\"." ++ cfg.new_service ++ str "\""⟩,
      safe_word_replace cfg.old_service cfg.new_service,
      ⟨Pat.lit (str "RustDesk Input"), cfg.new_app_name ++ str " Input"⟩,
      ⟨Pat.lit (str "RustDesk Service"), cfg.new_app_name ++ str " Service"⟩,
      ⟨Pat.lit (str "RustDesk Service Channel"), cfg.new_app_name ++ str " Service Channel"⟩,
      ⟨Pat.lit (str "Show RustDesk"), str "Show " ++ cfg.new_app_name⟩,
      ⟨Pat.logTag, str "\"Todd service\""⟩,
      safe_word_replace (str "idShowRustDesk") (str "idShowToddDesk"),
      ⟨Pat.lit (str "android:scheme=\"" ++ cfg.old_scheme ++ str "\""),
        str "android:scheme=\"" ++ cfg.new_scheme ++ str "\""⟩,
      ⟨Pat.lit (cfg.old_scheme ++ str "://"), cfg.new_scheme ++ str "://"⟩,
      ⟨Pat.loadLib [cfg.old_scheme, cfg.new_scheme, str "rustdesk", str "todddesk"],
        str "System.loadLibrary(\"rustdesk\")"⟩,
      ⟨Pat.lit (str "lib" ++ cfg.new_scheme ++ str ".so"), str "librustdesk.so"⟩,
      ⟨Pat.lit (str "libtodddesk.so"), str "librustdesk.so"⟩]

/-! ## Filesystem model

A filesystem is a list of files; a file is a path (segments relative to the
repository root) and a text content.  A directory "exists" when some file
lies strictly under it; directory existence of the `flutter/android` root,
which the script checks up front, is passed to `main` as a separate flag so
that the precondition is modelled independently of the file list. -/

/-- A regular file: repository-relative path segments plus content. -/
structure FSFile where
  path : List Text
  content : Text
deriving DecidableEq, Repr

/-- `TEXT_EXTS`, the extension allow-list. -/
def TEXT_EXTS : List Text :=
  [str ".kt", str ".java", str ".xml", str ".gradle", str ".properties",
   str ".txt", str ".md", str ".dart"]

/-- Index of the last dot in a name, if any. -/
def rfindDot : Text → Option Nat
  | [] => none
  | c :: cs =>
    match rfindDot cs with
    | some i => some (i + 1)
    | none => if c = '.' then some 0 else none

/-- `pathlib`'s `Path.suffix` on a file name: the final component from the
last dot on, empty when the dot is leading, trailing or absent. -/
def pySuffix (name : Text) : Text :=
  match rfindDot name with
  | some i => if 0 < i ∧ i < name.length - 1 then name.drop i else []
  | none => []

/-- Lower-case a text (`.lower()` on the suffix). -/
def lowerText (t : Text) : Text := t.map Char.toLower

/-- Last path segment. -/
def basename (p : List Text) : Text := p.getLastD []

/-- Membership of the lower-cased suffix in `TEXT_EXTS`. -/
def textExt (p : List Text) : Prop := lowerText (pySuffix (basename p)) ∈ TEXT_EXTS

instance (p : List Text) : Decidable (textExt p) := by
  unfold textExt; infer_instance

/-- `iter_text_files`: files under `root` whose suffix is allow-listed. -/
def iter_text_files (root : List Text) (fs : List FSFile) : List FSFile :=
  fs.filter fun f => decide (root <+: f.path) && decide (textExt f.path)

/-- `replace_in_file` on one file content: the rewritten text together with
the changed flag (true exactly when the file is written back). -/
def replace_in_file (rules : List Rule) (src : Text) : Text × Bool :=
  let dst := applyRules rules src
  if dst ≠ src then (dst, true) else (src, false)

/-- `repo / "flutter" / "android"`. -/
def androidRoot : List Text := [str "flutter", str "android"]

/-- `flutter/android/app/build.gradle`. -/
def gradlePath : List Text :=
  [str "flutter", str "android", str "app", str "build.gradle"]

/-- `flutter/android/app/src/main/AndroidManifest.xml`. -/
def manifestPath : List Text :=
  [str "flutter", str "android", str "app", str "src", str "main",
   str "AndroidManifest.xml"]

/-- `todd_patch_report.md` at the repository root. -/
def reportPath : List Text := [str "todd_patch_report.md"]

/-- The rewrite loop of `main`: every allow-listed file under `root` gets
`replace_in_file` applied; the changed-file list records, in traversal
order, the paths whose content differed. -/
def rewriteTree (rules : List Rule) (root : List Text) (fs : List FSFile) :
    List FSFile × List (List Text) :=
  (fs.map fun f =>
      if root <+: f.path ∧ textExt f.path
      then { f with content := (replace_in_file rules f.content).1 }
      else f,
   ((iter_text_files root fs).filter fun f =>
      (replace_in_file rules f.content).2).map (·.path))

/-- `scan_any`: files under `root` whose content contains `needle` as a
substring (Python's `in`). -/
def scan_any (root : List Text) (fs : List FSFile) (needle : Text) : List FSFile :=
  (iter_text_files root fs).filter fun f => decide (needle <:+: f.content)

/-- Content of the file at `p`, if present. -/
def fileContent (fs : List FSFile) (p : List Text) : Option Text :=
  (fs.find? fun f => decide (f.path = p)).map (·.content)

/-- Whether a directory exists, modelled as: some file lies under it. -/
def dirUnder (d : List Text) (fs : List FSFile) : Prop :=
  ∃ f ∈ fs, d <+: f.path

instance (d : List Text) (fs : List FSFile) : Decidable (dirUnder d fs) := by
  unfold dirUnder; infer_instance

/-- Write (create or overwrite) the file at `p`. -/
def writeFile (fs : List FSFile) (p : List Text) (c : Text) : List FSFile :=
  if fs.any fun f => decide (f.path = p)
  then fs.map fun f => if f.path = p then { f with content := c } else f
  else fs ++ [⟨p, c⟩]

/-- `"a.b.c".split(".")` as path segments; `pathlib` drops empty segments. -/
def splitDot : Text → List Text
  | [] => [[]]
  | c :: cs =>
    let r := splitDot cs
    if c = '.' then [] :: r
    else
      match r with
      | [] => [[c]]
      | h :: t => (c :: h) :: t

/-- Package identifier as path segments under the Kotlin source root. -/
def pkgSegs (pkg : Text) : List Text := (splitDot pkg).filter (· ≠ [])

/-- `flutter/android/app/src/main/kotlin`. -/
def kotlinRoot : List Text :=
  [str "flutter", str "android", str "app", str "src", str "main", str "kotlin"]

/-- Old-package Kotlin directory. -/
def oldKotlinDir (cfg : PatchConfig) : List Text := kotlinRoot ++ pkgSegs cfg.old_package

/-- New-package Kotlin directory. -/
def newKotlinDir (cfg : PatchConfig) : List Text := kotlinRoot ++ pkgSegs cfg.new_package

/-- `move_kotlin_dir`: skip with a note when the Kotlin root or the old
directory is missing; merge (copy every file, then delete the old subtree)
when the destination exists; plain move otherwise.  Notes are modelled as
fixed tags. -/
def move_kotlin_dir (cfg : PatchConfig) (fs : List FSFile) (notes : List Text) :
    List FSFile × List Text :=
  if ¬ dirUnder kotlinRoot fs then (fs, notes ++ [str "Kotlin root not found"])
  else if ¬ dirUnder (oldKotlinDir cfg) fs then
    (fs, notes ++ [str "Old kotlin dir not found (skip move)"])
  else if dirUnder (newKotlinDir cfg) fs then
    ((((fs.filter fun f => decide (oldKotlinDir cfg <+: f.path)).foldl
        (fun acc f =>
          writeFile acc (newKotlinDir cfg ++ f.path.drop (oldKotlinDir cfg).length)
            f.content) fs).filter
      fun f => ! decide (oldKotlinDir cfg <+: f.path)),
     notes ++ [str "New kotlin dir exists, merge files", str "Deleted old kotlin dir"])
  else
    (fs.map fun f =>
      if oldKotlinDir cfg <+: f.path
      then ⟨newKotlinDir cfg ++ f.path.drop (oldKotlinDir cfg).length, f.content⟩ else f,
     notes ++ [str "Moved kotlin dir"])

/-- The `build.gradle` validation: if the file exists, `applicationId` must
name the new package and must not name the old one. -/
def checkGradle (cfg : PatchConfig) (fs : List FSFile) : Option Text :=
  match fileContent fs gradlePath with
  | none => none
  | some g =>
    if ¬ ((str "applicationId \"" ++ cfg.new_package ++ str "\"") <:+: g)
    then some (str "applicationId must be the new package")
    else if (str "applicationId \"" ++ cfg.old_package ++ str "\"") <:+: g
    then some (str "old applicationId must be gone")
    else none

/-- The `AndroidManifest.xml` validation: if the file exists, it must carry
the new package, service and scheme attributes. -/
def checkManifest (cfg : PatchConfig) (fs : List FSFile) : Option Text :=
  match fileContent fs manifestPath with
  | none => none
  | some m =>
    if ¬ ((str "package=\"" ++ cfg.new_package ++ str "\"") <:+: m)
    then some (str "manifest package must be the new package")
    else if ¬ ((str "android:name=\"." ++ cfg.new_service ++ str "\"") <:+: m)
    then some (str "service android:name must be the new service")
    else if ¬ ((str "android:scheme=\"" ++ cfg.new_scheme ++ str "\"") <:+: m)
    then some (str "scheme must be the new scheme")
    else none

/-- The validation block of `main`, in source order; `some msg` models a
`SystemExit` (nonzero exit status). -/
def validate (cfg : PatchConfig) (fs : List FSFile) : Option Text :=
  match checkGradle cfg fs with
  | some m => some m
  | none =>
    match checkManifest cfg fs with
    | some m => some m
    | none =>
      if scan_any androidRoot fs cfg.old_package ≠ []
      then some (str "flutter/android still contains the old package")
      else if scan_any androidRoot fs (str "lib" ++ cfg.new_scheme ++ str ".so") ≠ [] ∨
              scan_any androidRoot fs (str "libtodddesk.so") ≠ []
      then some (str "native so was altered")
      else if scan_any androidRoot fs
                (str "System.loadLibrary(\"" ++ cfg.new_scheme ++ str "\")") ≠ [] ∨
              scan_any androidRoot fs (str "System.loadLibrary(\"todddesk\")") ≠ []
      then some (str "System.loadLibrary was altered")
      else none

/-- Decimal rendering of a count for the report. -/
def natText (n : Nat) : Text := Nat.toDigits 10 n

/-- `"/".join(segments)` (`Path.as_posix`). -/
def joinPath (p : List Text) : Text := List.intercalate (str "/") p

/-- The report document of `write_report`. -/
def reportText (cfg : PatchConfig) (changed : List (List Text)) (notes : List Text) : Text :=
  str "# Todd Android Patch Report\n\n## Targets\n\n"
  ++ str "- old_package: `" ++ cfg.old_package ++ str "`\n"
  ++ str "- new_package: `" ++ cfg.new_package ++ str "`\n"
  ++ str "- old_app_name: `" ++ cfg.old_app_name ++ str "`\n"
  ++ str "- new_app_name: `" ++ cfg.new_app_name ++ str "`\n"
  ++ str "- old_scheme: `" ++ cfg.old_scheme ++ str "`\n"
  ++ str "- new_scheme: `" ++ cfg.new_scheme ++ str "`\n"
  ++ str "- old_service: `" ++ cfg.old_service ++ str "`\n"
  ++ str "- new_service: `" ++ cfg.new_service ++ str "`\n"
  ++ str "- accessibility_desc: `" ++ cfg.accessibility_desc ++ str "`\n"
  ++ str "\n## File changes\n\n- changed_files_count: **" ++ natText changed.length
  ++ str "**\n"
  ++ (((changed.take 400).map fun p => str "  - `" ++ joinPath p ++ str "`\n").flatten)
  ++ (if 400 < changed.length
      then str "  - ... and " ++ natText (changed.length - 400) ++ str " more\n"
      else [])
  ++ str "\n## Directory move / notes\n\n"
  ++ (if notes = [] then str "- (none)\n" else (notes.map (· ++ str "\n")).flatten)

/-- `write_report`: write the report file at the repository root. -/
def write_report (fs : List FSFile) (cfg : PatchConfig) (changed : List (List Text))
    (notes : List Text) : List FSFile :=
  writeFile fs reportPath (reportText cfg changed notes)

/-- Outcome of a run: exit status 0 with the summary counts, or a fatal
`SystemExit` message (nonzero exit status). -/
inductive RunResult where
  | ok : Nat → Nat → RunResult
  | fail : Text → RunResult
deriving DecidableEq, Repr

/-- The filesystem state after the rewrite pass and the optional directory
move — the state the Validator scans. -/
def postMove (cfg : PatchConfig) (moveFlag : Bool) (fs : List FSFile) :
    List FSFile × List (List Text) × List Text :=
  let pr := rewriteTree (build_rules cfg) androidRoot fs
  let mv := if moveFlag then move_kotlin_dir cfg pr.1 [] else (pr.1, [])
  (mv.1, pr.2, mv.2)

/-- `main`: precondition check, rule build, rewrite pass, optional directory
move, validation, report.  `androidExists` models
`(repo / "flutter" / "android").exists()`. -/
def main (cfg : PatchConfig) (androidExists : Bool) (moveFlag : Bool)
    (fs : List FSFile) : List FSFile × RunResult :=
  if androidExists = false then (fs, .fail (str "flutter/android not found"))
  else
    let st := postMove cfg moveFlag fs
    match validate cfg st.1 with
    | some m => (st.1, .fail m)
    | none =>
      (write_report st.1 cfg st.2.1 st.2.2,
       .ok (iter_text_files androidRoot fs).length st.2.1.length)

/-! ## Claim-support definitions -/

/-- Rule 4 of `build_rules` under the default configuration: the
whole-identifier service-class substitution. -/
def svcRule : Rule := safe_word_replace defaultCfg.old_service defaultCfg.new_service

/-- A text on which the default rule set is not idempotent: the log-tag rule
rewrites the first quoted `input service`, and the closing quote of the
replacement together with the following text forms a fresh match that only a
second pass rewrites. -/
def c4text : Text := str "\"input service\"input service\""

/-- A canonical already-patched artifact text: every construct the rules
target, in its patched form. -/
def patchedSample : Text :=
  str "applicationId \"com.celonis.work\"\npackage=\"com.celonis.work\"\nandroid:name=\".ToddService\"\nandroid:scheme=\"todddesk\"\nSystem.loadLibrary(\"rustdesk\")\nlibrustdesk.so\n<string name=\"app_name\">ToddDesk</string>\n<string name=\"accessibility_service_description\">Made by Todd</string>\n\"Todd service\"\nidShowToddDesk\ntodddesk://example\n"

/-- Rule 2a of `build_rules` under the default configuration: the
accessibility-description tag-span rewrite. -/
def accRule : Rule := ⟨Pat.tag (str "accessibility_service_description"), defaultCfg.accessibility_desc⟩

/-- Rule 2b of `build_rules` under the default configuration: the app-name
tag-span rewrite. -/
def appRule : Rule := ⟨Pat.tag (str "app_name"), defaultCfg.new_app_name⟩

/-- The single-space surface form of the accessibility-description open tag. -/
def openAcc : Text := str "<string name=\"accessibility_service_description\">"

/-- The single-space surface form of the app-name open tag. -/
def openApp : Text := str "<string name=\"app_name\">"

/-- A configuration whose old app name collides with the load-by-name
argument. -/
def c2cfg : PatchConfig :=
  { defaultCfg with old_app_name := str "rustdesk", new_app_name := str "X" }

/-- A small two-package Kotlin tree used to exercise the directory merge. -/
def fsM8 : List FSFile :=
  [⟨[str "flutter", str "android", str "app", str "src", str "main", str "kotlin",
      str "com", str "carriez", str "flutter_hbb", str "M.kt"], str "a"⟩,
   ⟨[str "flutter", str "android", str "app", str "src", str "main", str "kotlin",
      str "com", str "celonis", str "work", str "N.kt"], str "b"⟩]

/-! ## Engine lemmas -/

theorem subAuxF_fuel (r : Rule) : ∀ (fuel : Nat) (prev : Option Char) (t : Text)
    (fuel' : Nat), t.length ≤ fuel → t.length ≤ fuel' →
    subAuxF fuel r prev t = subAuxF fuel' r prev t := by
  intro fuel
  induction fuel using Nat.strong_induction_on with
  | _ fuel ih =>
    intro prev t fuel' h h'
    match fuel, t, fuel' with
    | 0, t, fuel' =>
      have ht : t = [] := List.eq_nil_of_length_eq_zero (Nat.le_zero.mp h)
      subst ht; cases fuel' <;> rfl
    | f + 1, [], fuel' => cases fuel' <;> rfl
    | f + 1, c :: cs, 0 => simp at h'
    | f + 1, c :: cs, f' + 1 =>
      simp only [List.length_cons] at h h'
      unfold subAuxF
      cases hm : matchAt r prev (c :: cs) with
      | none =>
        simp only
        rw [ih f (by omega) (some c) cs f' (by omega) (by omega)]
      | some v =>
        obtain ⟨n, out⟩ := v
        simp only
        by_cases hn : n = 0
        · subst hn
          have e : ∀ (x y : Text), (if 0 = 0 then x else y) = x := fun x y => if_pos rfl
          rw [e, e, ih f (by omega) (some c) cs f' (by omega) (by omega)]
        · rw [if_neg hn, if_neg hn]
          have hd : ((c :: cs).drop n).length = cs.length + 1 - n := by
            simp [List.length_drop]
          rw [ih f (by omega) _ ((c :: cs).drop n) f' (by omega) (by omega)]

theorem subFrom_cons_none {r : Rule} {prev : Option Char} {c : Char} {cs : Text}
    (h : matchAt r prev (c :: cs) = none) :
    subFrom r prev (c :: cs) = c :: subFrom r (some c) cs := by
  show subAuxF (cs.length + 1) r prev (c :: cs) = _
  unfold subAuxF
  rw [h]
  rfl

theorem subFrom_cons_some {r : Rule} {prev : Option Char} {c : Char} {cs : Text}
    {n : Nat} {out : Text} (h : matchAt r prev (c :: cs) = some (n, out))
    (hn : n ≠ 0) :
    subFrom r prev (c :: cs)
      = out ++ subFrom r (some ((c :: cs).getD (n - 1) c)) ((c :: cs).drop n) := by
  show subAuxF (cs.length + 1) r prev (c :: cs) = _
  unfold subAuxF
  rw [h]
  simp only [if_neg hn]
  congr 1
  exact subAuxF_fuel r cs.length _ _ _ (by simp [List.length_drop]; omega) (le_refl _)

theorem pfxOf_iff : ∀ {p t : Text}, pfxOf p t = true ↔ p <+: t := by
  intro p
  induction p with
  | nil => intro t; simp [pfxOf]
  | cons a as ih =>
    intro t
    cases t with
    | nil =>
      simp only [pfxOf]
      constructor
      · intro h; exact absurd h (by simp)
      · intro h; exact absurd (List.prefix_nil.mp h) (by simp)
    | cons b bs =>
      simp only [pfxOf]
      by_cases hab : a = b
      · subst hab
        rw [if_pos rfl, List.cons_prefix_cons]
        simp [ih]
      · rw [if_neg hab, List.cons_prefix_cons]
        simp [hab]

theorem matchAt_frame {r : Rule} {prev : Option Char} {t : Text}
    {x : Nat × Text} (h : matchAt r prev t = some x) : r.pat.frame <+: t := by
  obtain ⟨pat, repl⟩ := r
  cases pat with
  | lit p =>
    simp only [matchAt] at h
    split at h
    · rename_i hc
      simp only [Bool.and_eq_true] at hc
      exact pfxOf_iff.mp hc.2
    · exact absurd h (by simp)
  | word w =>
    simp only [matchAt] at h
    split at h
    · rename_i hc
      simp only [Bool.and_eq_true] at hc
      exact pfxOf_iff.mp hc.1.1.2
    · exact absurd h (by simp)
  | tag name =>
    simp only [matchAt] at h
    split at h
    · rename_i hc
      exact pfxOf_iff.mp hc
    · exact absurd h (by simp)
  | logTag =>
    simp only [matchAt] at h
    split at h
    · rename_i hc
      exact pfxOf_iff.mp hc
    · exact absurd h (by simp)
  | loadLib alts =>
    simp only [matchAt] at h
    split at h
    · rename_i hc
      exact pfxOf_iff.mp hc
    · exact absurd h (by simp)

theorem subAuxF_id_of_no_frame {r : Rule} {t : Text} (h : ¬ r.pat.frame <:+: t) :
    ∀ (fuel : Nat) (prev : Option Char), subAuxF fuel r prev t = t := by
  induction t with
  | nil => intro fuel prev; cases fuel <;> rfl
  | cons c cs ih =>
    intro fuel prev
    cases fuel with
    | zero => rfl
    | succ f =>
      unfold subAuxF
      cases hm : matchAt r prev (c :: cs) with
      | some v => exact absurd (matchAt_frame hm).isInfix h
      | none =>
        simp only
        rw [ih (fun hi => h (List.infix_cons hi)) f (some c)]

theorem subFrom_id_of_no_frame {r : Rule} {t : Text} {prev : Option Char}
    (h : ¬ r.pat.frame <:+: t) : subFrom r prev t = t :=
  subAuxF_id_of_no_frame h _ _

theorem applyRule_id_of_no_frame {r : Rule} {t : Text}
    (h : ¬ r.pat.frame <:+: t) : applyRule r t = t :=
  subAuxF_id_of_no_frame h _ _

theorem infix_head_mem {c : Char} {p t : Text} (h : (c :: p) <:+: t) : c ∈ t :=
  h.mem (List.mem_cons_self c p)

/-! ## Word-rule matcher lemmas -/

theorem matchAt_word_none {w repl : Text} {prev : Option Char} {t : Text}
    (h : (!w.isEmpty && pfxOf w t && boundaryL prev (w.headD ' ')
          && boundaryR (w.getLastD ' ') (t.drop w.length)) = false) :
    matchAt ⟨Pat.word w, repl⟩ prev t = none := by
  simp only [matchAt]
  rw [h]
  rfl

theorem and_false_of_right {a d : Bool} (h : d = false) : (a && d) = false := by
  rw [h, Bool.and_false]

theorem and_false_of_left {a d : Bool} (h : a = false) : (a && d) = false := by
  rw [h, Bool.false_and]

theorem svc_none_head (c : Char) (hc : c ≠ 'I') (prev : Option Char) (t : Text) :
    matchAt svcRule prev (c :: t) = none := by
  apply matchAt_word_none
  apply and_false_of_left
  apply and_false_of_left
  apply and_false_of_right
  show (if 'I' = c then pfxOf (str "nputService") t else false) = false
  rw [if_neg (fun h => hc h.symm)]

theorem svc_none_Im (prev : Option Char) (t : Text) :
    matchAt svcRule prev ('I' :: 'm' :: t) = none := by
  apply matchAt_word_none
  apply and_false_of_left
  apply and_false_of_left
  apply and_false_of_right
  rfl

theorem svc_none_start (prev : Option Char) (t : Text) :
    matchAt svcRule prev ('I' :: 'n' :: 'p' :: 'u' :: 't' :: 'S' :: 'e' :: 'r' ::
      'v' :: 'i' :: 'c' :: 'e' :: 'I' :: 'm' :: 'p' :: 'l' :: t) = none := by
  apply matchAt_word_none
  apply and_false_of_right
  rfl

/-! ## Claim theorems -/

/-- C10: if the repository root has no `flutter/android` subtree, the run
aborts immediately with a fatal error and the filesystem is returned
untouched — no rule applied, no file rewritten, no report written. -/
theorem C10_missing_android_aborts (cfg : PatchConfig) (moveFlag : Bool)
    (fs : List FSFile) :
    main cfg false moveFlag fs
      = (fs, RunResult.fail (str "flutter/android not found")) := rfl

set_option maxRecDepth 10000 in
/-- C4 counterexample: the full default rule set is not idempotent.  On the
text `"input service"input service"` the first pass produces
`"Todd service"input service"` and a second pass changes it again, because
the closing quote of the log-tag replacement seeds a fresh match. -/
theorem C4_counterexample :
    applyRules (build_rules defaultCfg) (applyRules (build_rules defaultCfg) c4text)
      ≠ applyRules (build_rules defaultCfg) c4text := by decide

set_option maxRecDepth 10000 in
/-- C4 amended: a second pass of the default rule set is the identity on the
already-patched forms of every construct the rules target (package id,
manifest attributes, service name, scheme forms, protected native-library
names, normalized string tags and log tag), so a second Rewriter pass over a
tree of such patched artifacts reports zero changed files; idempotence does
not hold for arbitrary text. -/
theorem C4_second_pass_identity_on_patched_artifacts :
    applyRules (build_rules defaultCfg) patchedSample = patchedSample ∧
    (rewriteTree (build_rules defaultCfg) androidRoot
        [⟨[str "flutter", str "android", str "res.xml"], patchedSample⟩]).2 = [] := by
  constructor
  · decide
  · decide

/-- C6: the whole-identifier substitution for the old service class name
replaces only complete tokens: the scanner copies a longer identifier that
merely contains `InputService` (such as `InputServiceImpl`) verbatim, for
every preceding character and every continuation of the text, and the full
default rule set leaves a text consisting of such identifiers unchanged. -/
theorem C6_word_boundary_protects_superstrings :
    (∀ (prev : Option Char) (r : Text),
        subFrom svcRule prev (str "InputServiceImpl" ++ r)
          = str "InputServiceImpl" ++ subFrom svcRule (some 'l') r) ∧
    applyRules (build_rules defaultCfg)
        (str "class InputServiceImpl : InputServiceImpl()")
      = str "class InputServiceImpl : InputServiceImpl()" := by
  constructor
  · intro prev r
    show subFrom svcRule prev ('I' :: 'n' :: 'p' :: 'u' :: 't' :: 'S' :: 'e' ::
        'r' :: 'v' :: 'i' :: 'c' :: 'e' :: 'I' :: 'm' :: 'p' :: 'l' :: r)
      = 'I' :: 'n' :: 'p' :: 'u' :: 't' :: 'S' :: 'e' :: 'r' :: 'v' :: 'i' ::
        'c' :: 'e' :: 'I' :: 'm' :: 'p' :: 'l' :: subFrom svcRule (some 'l') r
    rw [subFrom_cons_none (svc_none_start prev _),
        subFrom_cons_none (svc_none_head 'n' (by decide) (some 'I') _),
        subFrom_cons_none (svc_none_head 'p' (by decide) (some 'n') _),
        subFrom_cons_none (svc_none_head 'u' (by decide) (some 'p') _),
        subFrom_cons_none (svc_none_head 't' (by decide) (some 'u') _),
        subFrom_cons_none (svc_none_head 'S' (by decide) (some 't') _),
        subFrom_cons_none (svc_none_head 'e' (by decide) (some 'S') _),
        subFrom_cons_none (svc_none_head 'r' (by decide) (some 'e') _),
        subFrom_cons_none (svc_none_head 'v' (by decide) (some 'r') _),
        subFrom_cons_none (svc_none_head 'i' (by decide) (some 'v') _),
        subFrom_cons_none (svc_none_head 'c' (by decide) (some 'i') _),
        subFrom_cons_none (svc_none_head 'e' (by decide) (some 'c') _),
        subFrom_cons_none (svc_none_Im (some 'e') _),
        subFrom_cons_none (svc_none_head 'm' (by decide) (some 'I') _),
        subFrom_cons_none (svc_none_head 'p' (by decide) (some 'm') _),
        subFrom_cons_none (svc_none_head 'l' (by decide) (some 'p') _)]
  · decide

/-- C5: the Rewriter and every Validator scan enumerate only files whose
lower-cased extension is in the fixed allow-list: every `scan_any` hit has
an allow-listed extension; a file with any other extension survives the
rewrite pass untouched and never enters the changed list; and a run over a
tree whose only old-package occurrence sits in a `.json` file succeeds. -/
theorem C5_extension_allowlist :
    (∀ (root : List Text) (fs : List FSFile) (needle : Text) (f : FSFile),
        f ∈ scan_any root fs needle → textExt f.path) ∧
    (∀ (rules : List Rule) (fs : List FSFile) (f : FSFile), f ∈ fs →
        ¬ textExt f.path →
        f ∈ (rewriteTree rules androidRoot fs).1 ∧
        f.path ∉ (rewriteTree rules androidRoot fs).2) ∧
    (main defaultCfg true false
        [⟨[str "flutter", str "android", str "c.json"],
          str "com.carriez.flutter_hbb"⟩]).2 = RunResult.ok 0 0 := by
  refine ⟨?_, ?_, by decide⟩
  · intro root fs needle f h
    have h1 : f ∈ iter_text_files root fs := List.mem_of_mem_filter h
    have h2 := List.of_mem_filter h1
    simp only [Bool.and_eq_true, decide_eq_true_eq] at h2
    exact h2.2
  · intro rules fs f hf hext
    constructor
    · apply List.mem_map.mpr
      refine ⟨f, hf, ?_⟩
      rw [if_neg]
      rintro ⟨-, h2⟩
      exact hext h2
    · intro hmem
      obtain ⟨g, hg, hpath⟩ := List.mem_map.mp hmem
      have hg1 : g ∈ iter_text_files androidRoot fs := List.mem_of_mem_filter hg
      have hg2 := List.of_mem_filter hg1
      simp only [Bool.and_eq_true, decide_eq_true_eq] at hg2
      exact hext (hpath ▸ hg2.2)

/-- C5 witness: a `.kt` hit of a scan has an allow-listed extension, and a
`.json` file is returned untouched by the rewrite pass. -/
theorem C5_witness :
    textExt [str "flutter", str "android", str "w.kt"] ∧
    (⟨[str "flutter", str "android", str "c.json"], str "x"⟩ : FSFile)
      ∈ (rewriteTree [] androidRoot
          [⟨[str "flutter", str "android", str "c.json"], str "x"⟩]).1 :=
  ⟨C5_extension_allowlist.1 androidRoot
      [⟨[str "flutter", str "android", str "w.kt"], str "x"⟩] (str "x")
      ⟨[str "flutter", str "android", str "w.kt"], str "x"⟩ (by decide),
   (C5_extension_allowlist.2.1 []
      [⟨[str "flutter", str "android", str "c.json"], str "x"⟩]
      ⟨[str "flutter", str "android", str "c.json"], str "x"⟩
      (by decide) (by decide)).1⟩

/-- C9: a file processed by the Rewriter is written back (changed flag set)
exactly when the ordered rules produce text different from what was read;
the resulting content is always the rule application; and a scanned file's
path enters the changed-file list exactly when its rewritten content
differs. -/
theorem C9_write_back_iff_changed :
    (∀ (rules : List Rule) (src : Text),
        ((replace_in_file rules src).2 = true ↔ applyRules rules src ≠ src) ∧
        (replace_in_file rules src).1 = applyRules rules src) ∧
    (∀ (rules : List Rule) (fs : List FSFile) (f : FSFile),
        (fs.map (·.path)).Nodup → f ∈ iter_text_files androidRoot fs →
        (f.path ∈ (rewriteTree rules androidRoot fs).2 ↔
          applyRules rules f.content ≠ f.content)) := by
  constructor
  · intro rules src
    unfold replace_in_file
    by_cases h : applyRules rules src ≠ src
    · simp [h]
    · simp only [ne_eq, not_not] at h
      simp [h]
  · intro rules fs f hnd hf
    constructor
    · intro hmem
      obtain ⟨g, hg, hpath⟩ := List.mem_map.mp hmem
      have hg1 : g ∈ iter_text_files androidRoot fs := List.mem_of_mem_filter hg
      have hgf : g = f :=
        List.inj_on_of_nodup_map hnd (List.mem_of_mem_filter hg1)
          (List.mem_of_mem_filter hf) hpath
      have hflag := List.of_mem_filter hg
      rw [hgf] at hflag
      intro heq
      rw [show (replace_in_file rules f.content).2 = false by
        unfold replace_in_file; simp [heq]] at hflag
      exact Bool.noConfusion hflag
    · intro hne
      apply List.mem_map.mpr
      refine ⟨f, List.mem_filter.mpr ⟨hf, ?_⟩, rfl⟩
      unfold replace_in_file
      simp [hne]

/-- C9 witness: a file whose content the rules change lands in the
changed-file list. -/
theorem C9_witness :
    [str "flutter", str "android", str "a.kt"]
      ∈ (rewriteTree (build_rules defaultCfg) androidRoot
          [⟨[str "flutter", str "android", str "a.kt"], str "RustDesk"⟩]).2 := by
  have h := (C9_write_back_iff_changed.2 (build_rules defaultCfg)
    [⟨[str "flutter", str "android", str "a.kt"], str "RustDesk"⟩]
    ⟨[str "flutter", str "android", str "a.kt"], str "RustDesk"⟩
    (by decide) (by decide)).mpr (by decide)
  exact h

/-! ## Filesystem lemmas -/

theorem fileContent_cons_pos {f : FSFile} {fs : List FSFile} {q : List Text}
    (h : f.path = q) : fileContent (f :: fs) q = some f.content := by
  unfold fileContent
  rw [List.find?_cons_of_pos _ (by simp [h])]
  rfl

theorem fileContent_cons_neg {f : FSFile} {fs : List FSFile} {q : List Text}
    (h : f.path ≠ q) : fileContent (f :: fs) q = fileContent fs q := by
  unfold fileContent
  rw [List.find?_cons_of_neg _ (by simp [h])]

theorem fileContent_map_of_path {g : FSFile → FSFile} {q : List Text}
    (h1 : ∀ f, f.path = q → g f = f)
    (h2 : ∀ f, f.path ≠ q → (g f).path ≠ q) :
    ∀ fs : List FSFile, fileContent (fs.map g) q = fileContent fs q := by
  intro fs
  induction fs with
  | nil => rfl
  | cons f fs ih =>
    rw [List.map_cons]
    by_cases hq : f.path = q
    · rw [h1 f hq, fileContent_cons_pos hq, fileContent_cons_pos hq]
    · rw [fileContent_cons_neg (h2 f hq), fileContent_cons_neg hq, ih]

theorem fileContent_append_sing {fs : List FSFile} {x : FSFile} {q : List Text}
    (h : x.path ≠ q) : fileContent (fs ++ [x]) q = fileContent fs q := by
  unfold fileContent
  rw [List.find?_append]
  rw [List.find?_cons_of_neg _ (by simp [h]), List.find?_nil, Option.or_none]

theorem fileContent_writeFile_ne {fs : List FSFile} {p q : List Text} {c : Text}
    (h : p ≠ q) : fileContent (writeFile fs p c) q = fileContent fs q := by
  unfold writeFile
  split
  · apply fileContent_map_of_path
    · intro f hf
      rw [if_neg (hf ▸ (Ne.symm h))]
    · intro f hf
      split
      · rename_i hfp
        simpa [hfp] using h
      · exact hf
  · exact fileContent_append_sing h

theorem fileContent_writeFile_self {fs : List FSFile} {p : List Text} {c : Text} :
    fileContent (writeFile fs p c) p = some c := by
  unfold writeFile
  split
  · rename_i hany
    rw [List.any_eq_true] at hany
    obtain ⟨x, hx, hpx⟩ := hany
    simp only [decide_eq_true_eq] at hpx
    induction fs with
    | nil => exact absurd hx (by simp)
    | cons f fs ih =>
      rw [List.map_cons]
      by_cases hq : f.path = p
      · rw [show (if f.path = p then { f with content := c } else f)
            = { f with content := c } from if_pos hq]
        exact fileContent_cons_pos hq
      · rw [show (if f.path = p then { f with content := c } else f) = f from if_neg hq]
        rw [fileContent_cons_neg hq]
        rcases List.mem_cons.mp hx with he | hm
        · exact absurd (he ▸ hpx) hq
        · exact ih hm
  · rename_i hany
    rw [Bool.not_eq_true, List.any_eq_false] at hany
    unfold fileContent
    rw [List.find?_append,
      show fs.find? (fun f => decide (f.path = p)) = none from
        List.find?_eq_none.mpr (fun x hx => by simpa using hany x hx),
      Option.none_or, List.find?_cons_of_pos _ (by simp)]
    rfl

theorem fileContent_filter_of_kept {pred : FSFile → Bool} {q : List Text}
    (h : ∀ f : FSFile, f.path = q → pred f = true) :
    ∀ fs : List FSFile, fileContent (fs.filter pred) q = fileContent fs q := by
  intro fs
  induction fs with
  | nil => rfl
  | cons f fs ih =>
    by_cases hq : f.path = q
    · rw [List.filter_cons_of_pos (h f hq), fileContent_cons_pos hq,
        fileContent_cons_pos hq]
    · cases hp : pred f
      · rw [List.filter_cons_of_neg (by simp [hp]), ih, fileContent_cons_neg hq]
      · rw [List.filter_cons_of_pos hp, fileContent_cons_neg hq,
          fileContent_cons_neg hq, ih]

theorem mem_iter_writeFile {root p : List Text} {c : Text} {f : FSFile}
    {fs : List FSFile} (h : ¬ root <+: p)
    (hf : f ∈ iter_text_files root (writeFile fs p c)) :
    f ∈ iter_text_files root fs := by
  unfold writeFile at hf
  split at hf
  · unfold iter_text_files at hf ⊢
    have h1 := List.mem_of_mem_filter hf
    have h2 := List.of_mem_filter hf
    obtain ⟨f0, hf0, hgf⟩ := List.mem_map.mp h1
    by_cases hq : f0.path = p
    · rw [if_pos hq] at hgf
      rw [← hgf] at h2
      simp only [Bool.and_eq_true, decide_eq_true_eq] at h2
      exact absurd (hq ▸ h2.1) h
    · rw [if_neg hq] at hgf
      exact List.mem_filter.mpr ⟨hgf ▸ hf0, hgf ▸ h2⟩
  · unfold iter_text_files at hf
    rw [List.filter_append] at hf
    rcases List.mem_append.mp hf with h1 | h1
    · exact h1
    · have h2 := List.of_mem_filter h1
      have h3 : f ∈ [(⟨p, c⟩ : FSFile)] := List.mem_of_mem_filter h1
      simp only [List.mem_singleton] at h3
      rw [h3] at h2
      simp only [Bool.and_eq_true, decide_eq_true_eq] at h2
      exact absurd h2.1 h

theorem validate_none_scan {cfg : PatchConfig} {fs : List FSFile}
    (h : validate cfg fs = none) :
    scan_any androidRoot fs cfg.old_package = [] := by
  unfold validate at h
  split at h
  · exact absurd h (by simp)
  · split at h
    · exact absurd h (by simp)
    · by_cases hs : scan_any androidRoot fs cfg.old_package ≠ []
      · rw [if_pos hs] at h
        exact absurd h (by simp)
      · simpa using hs

theorem validate_some_of_scan {cfg : PatchConfig} {fs : List FSFile}
    (h : scan_any androidRoot fs cfg.old_package ≠ []) :
    ∃ m, validate cfg fs = some m := by
  unfold validate
  split
  · exact ⟨_, rfl⟩
  · split
    · exact ⟨_, rfl⟩
    · rw [if_pos h]
      exact ⟨_, rfl⟩

theorem main_true_eq {cfg : PatchConfig} {mf : Bool} {fs : List FSFile} :
    main cfg true mf fs
      = match validate cfg (postMove cfg mf fs).1 with
        | some m => ((postMove cfg mf fs).1, RunResult.fail m)
        | none =>
          (write_report (postMove cfg mf fs).1 cfg (postMove cfg mf fs).2.1
             (postMove cfg mf fs).2.2,
           RunResult.ok (iter_text_files androidRoot fs).length
             (postMove cfg mf fs).2.1.length) := rfl

theorem main_ok_parts {cfg : PatchConfig} {mf : Bool} {fs fs' : List FSFile}
    {s c : Nat} (h : main cfg true mf fs = (fs', RunResult.ok s c)) :
    validate cfg (postMove cfg mf fs).1 = none ∧
    fs' = write_report (postMove cfg mf fs).1 cfg (postMove cfg mf fs).2.1
            (postMove cfg mf fs).2.2 := by
  rw [main_true_eq] at h
  cases hv : validate cfg (postMove cfg mf fs).1 with
  | some m =>
    rw [hv] at h
    exact absurd (congrArg Prod.snd h) (by simp)
  | none =>
    rw [hv] at h
    exact ⟨rfl, (congrArg Prod.fst h).symm⟩

theorem main_fail_of_scan {cfg : PatchConfig} {mf : Bool} {fs : List FSFile}
    (h : scan_any androidRoot (postMove cfg mf fs).1 cfg.old_package ≠ []) :
    ∃ m, main cfg true mf fs = ((postMove cfg mf fs).1, RunResult.fail m) := by
  obtain ⟨m, hv⟩ := validate_some_of_scan h
  exact ⟨m, by rw [main_true_eq, hv]⟩

theorem fileContent_rewriteTree_report {rules : List Rule} {fs : List FSFile} :
    fileContent (rewriteTree rules androidRoot fs).1 reportPath
      = fileContent fs reportPath := by
  apply fileContent_map_of_path
  · intro f hf
    rw [if_neg]
    rintro ⟨h1, -⟩
    rw [hf] at h1
    exact absurd h1 (by decide)
  · intro f hf
    split
    · exact hf
    · exact hf

theorem fileContent_copy_fold {pre : List Text} {k : Nat} {q : List Text}
    (hq : ∀ rel : List Text, pre ++ rel ≠ q) :
    ∀ (src fs : List FSFile),
      fileContent
        (src.foldl (fun acc f => writeFile acc (pre ++ f.path.drop k) f.content) fs) q
        = fileContent fs q := by
  intro src
  induction src with
  | nil => intro fs; rfl
  | cons f src ih =>
    intro fs
    rw [List.foldl_cons, ih, fileContent_writeFile_ne (hq _)]

theorem newdir_ne_report {cfg : PatchConfig} :
    ∀ rel : List Text, newKotlinDir cfg ++ rel ≠ reportPath := by
  intro rel h
  have := congrArg List.length h
  simp only [newKotlinDir, kotlinRoot, reportPath, List.length_append,
    List.length_cons, List.length_nil] at this
  omega

theorem olddir_not_pfx_report {cfg : PatchConfig} :
    ¬ oldKotlinDir cfg <+: reportPath := by
  intro h
  have := h.length_le
  simp only [oldKotlinDir, kotlinRoot, reportPath, List.length_append,
    List.length_cons, List.length_nil] at this
  omega

theorem fileContent_move_report {cfg : PatchConfig} {fs : List FSFile}
    {notes : List Text} :
    fileContent (move_kotlin_dir cfg fs notes).1 reportPath
      = fileContent fs reportPath := by
  unfold move_kotlin_dir
  split
  · rfl
  · split
    · rfl
    · split
      · rw [fileContent_filter_of_kept, fileContent_copy_fold newdir_ne_report]
        intro f hf
        rw [hf]
        simp only [Bool.not_eq_true']
        exact decide_eq_false olddir_not_pfx_report
      · apply fileContent_map_of_path
        · intro f hf
          rw [if_neg]
          rw [hf]
          exact olddir_not_pfx_report
        · intro f hf
          split
          · exact fun hc => newdir_ne_report _ hc
          · exact hf

theorem fileContent_postMove_report {cfg : PatchConfig} {mf : Bool}
    {fs : List FSFile} :
    fileContent (postMove cfg mf fs).1 reportPath = fileContent fs reportPath := by
  cases mf
  · show fileContent (rewriteTree (build_rules cfg) androidRoot fs).1 reportPath = _
    exact fileContent_rewriteTree_report
  · show fileContent
      (move_kotlin_dir cfg (rewriteTree (build_rules cfg) androidRoot fs).1 []).1
      reportPath = _
    rw [fileContent_move_report, fileContent_rewriteTree_report]

/-- C1: after a successful run (exit status 0) every scanned file of the
final `flutter/android` tree is free of the old package identifier; and
whenever, after all rules and the optional directory move, some scanned file
still contains it, the run ends with a fatal (nonzero) outcome. -/
theorem C1_success_means_no_residue (cfg : PatchConfig) (mf : Bool)
    (fs fs' : List FSFile) (s c : Nat)
    (h : main cfg true mf fs = (fs', RunResult.ok s c)) :
    (∀ f ∈ iter_text_files androidRoot fs', ¬ cfg.old_package <:+: f.content) ∧
    (∀ (cfg₂ : PatchConfig) (mf₂ : Bool) (fs₂ : List FSFile),
      (∃ f ∈ iter_text_files androidRoot (postMove cfg₂ mf₂ fs₂).1,
          cfg₂.old_package <:+: f.content) →
      ∃ m, (main cfg₂ true mf₂ fs₂).2 = RunResult.fail m) := by
  constructor
  · intro f hf
    obtain ⟨hv, hfs⟩ := main_ok_parts h
    rw [hfs] at hf
    have hf' : f ∈ iter_text_files androidRoot (postMove cfg mf fs).1 :=
      mem_iter_writeFile (by decide) hf
    have hscan := validate_none_scan hv
    have := List.filter_eq_nil_iff.mp hscan f hf'
    simpa using this
  · intro cfg₂ mf₂ fs₂ ⟨f, hf, hres⟩
    have hscan : scan_any androidRoot (postMove cfg₂ mf₂ fs₂).1 cfg₂.old_package ≠ [] := by
      intro hnil
      exact absurd hres (by simpa using List.filter_eq_nil_iff.mp hnil f hf)
    obtain ⟨m, hm⟩ := main_fail_of_scan hscan
    exact ⟨m, by rw [hm]⟩

set_option maxRecDepth 10000 in
/-- C1 witness: a concrete successful run on a small tree, whose scanned file
indeed contains no old package identifier. -/
theorem C1_witness :
    ¬ defaultCfg.old_package <:+:
      (⟨[str "flutter", str "android", str "x.kt"], str "hello"⟩ : FSFile).content := by
  have h := (C1_success_means_no_residue defaultCfg false
    [⟨[str "flutter", str "android", str "x.kt"], str "hello"⟩]
    (main defaultCfg true false
      [⟨[str "flutter", str "android", str "x.kt"], str "hello"⟩]).1 1 0
    (by decide)).1
  exact h ⟨[str "flutter", str "android", str "x.kt"], str "hello"⟩ (by decide)

/-- C3: a residue of `com.carriez.flutter_hbb` surviving all rules (and the
optional move) forces a fatal nonzero outcome, and the report file is not
written — its prior state at the report path is preserved. -/
theorem C3_residue_aborts_without_report (cfg : PatchConfig) (mf : Bool)
    (fs : List FSFile)
    (hold : cfg.old_package = str "com.carriez.flutter_hbb")
    (hres : scan_any androidRoot (postMove cfg mf fs).1 cfg.old_package ≠ []) :
    (∃ m, (main cfg true mf fs).2 = RunResult.fail m) ∧
    fileContent (main cfg true mf fs).1 reportPath = fileContent fs reportPath := by
  obtain ⟨m, hm⟩ := main_fail_of_scan hres
  constructor
  · exact ⟨m, by rw [hm]⟩
  · rw [hm]
    exact fileContent_postMove_report

set_option maxRecDepth 10000 in
/-- C3 witness: a configuration whose new package embeds the old one leaves a
residue, the run fails, and the (absent) report file stays absent. -/
theorem C3_witness :
    (∃ m, (main { defaultCfg with new_package := str "com.carriez.flutter_hbbX" }
        true false
        [⟨[str "flutter", str "android", str "a.kt"], str "com.carriez.flutter_hbb"⟩]).2
      = RunResult.fail m) ∧
    fileContent (main { defaultCfg with new_package := str "com.carriez.flutter_hbbX" }
        true false
        [⟨[str "flutter", str "android", str "a.kt"], str "com.carriez.flutter_hbb"⟩]).1
        reportPath
      = fileContent
          [⟨[str "flutter", str "android", str "a.kt"], str "com.carriez.flutter_hbb"⟩]
          reportPath :=
  C3_residue_aborts_without_report
    { defaultCfg with new_package := str "com.carriez.flutter_hbbX" } false
    [⟨[str "flutter", str "android", str "a.kt"], str "com.carriez.flutter_hbb"⟩]
    rfl (by decide)

/-! ## Tag-rule lemmas -/

theorem spanTo_cons_pos {needle : Text} {c : Char} {cs : Text}
    (h : pfxOf needle (c :: cs) = true) :
    spanTo needle (c :: cs) = some needle.length := by
  unfold spanTo
  rw [h]
  rfl

theorem spanTo_cons_neg {needle : Text} {c : Char} {cs : Text}
    (h : pfxOf needle (c :: cs) = false) :
    spanTo needle (c :: cs)
      = match spanTo needle cs with
        | some n => some (n + 1)
        | none => none := by
  conv_lhs => unfold spanTo
  rw [h]
  rfl

theorem close_no_straddle {c : Char} {cs X : Text}
    (h : ¬ str "</string>" <:+: (c :: cs)) :
    pfxOf (str "</string>") ((c :: cs) ++ (str "</string>" ++ X)) = false := by
  rw [Bool.eq_false_iff]
  intro hp
  have hp' : str "</string>" <+: (c :: cs) ++ (str "</string>" ++ X) := pfxOf_iff.mp hp
  by_cases hlen : 9 ≤ (c :: cs).length
  · have hcm : str "</string>" <+: (c :: cs) :=
      List.prefix_of_prefix_length_le hp' (List.prefix_append _ _)
        (by rw [show (str "</string>").length = 9 from rfl]; exact hlen)
    exact h hcm.isInfix
  · have hm : (c :: cs) <+: str "</string>" :=
      List.prefix_of_prefix_length_le (List.prefix_append _ _) hp'
        (by rw [show (str "</string>").length = 9 from rfl]; omega)
    have hdc : (c :: cs) ++ (str "</string>").drop (c :: cs).length = str "</string>" :=
      List.prefix_iff_eq_append.mp hm
    have hp2 : (c :: cs) ++ (str "</string>").drop (c :: cs).length
        <+: (c :: cs) ++ (str "</string>" ++ X) := by
      rw [hdc]
      exact hp'
    have hd : (str "</string>").drop (c :: cs).length <+: str "</string>" ++ X :=
      (List.prefix_append_right_inj _).mp hp2
    have hdc2 : (str "</string>").drop (c :: cs).length <+: str "</string>" :=
      List.prefix_of_prefix_length_le hd (List.prefix_append _ _)
        (by simp [List.length_drop])
    have h1 : 1 ≤ (c :: cs).length := by simp
    have h8 : (c :: cs).length ≤ 8 := by omega
    have hk : (c :: cs).length = 1 ∨ (c :: cs).length = 2 ∨ (c :: cs).length = 3 ∨
        (c :: cs).length = 4 ∨ (c :: cs).length = 5 ∨ (c :: cs).length = 6 ∨
        (c :: cs).length = 7 ∨ (c :: cs).length = 8 := by omega
    rcases hk with hk | hk | hk | hk | hk | hk | hk | hk <;> rw [hk] at hdc2 <;>
      exact absurd hdc2 (by decide)

theorem spanTo_first {r : Text} : ∀ {mid : Text}, ¬ str "</string>" <:+: mid →
    spanTo (str "</string>") (mid ++ (str "</string>" ++ r))
      = some (mid.length + 9) := by
  intro mid
  induction mid with
  | nil =>
    intro h
    show spanTo (str "</string>") ('<' :: (str "/string>" ++ r)) = some 9
    rw [spanTo_cons_pos (show pfxOf (str "</string>")
      ('<' :: (str "/string>" ++ r)) = true from rfl)]
    rfl
  | cons c cs ih =>
    intro h
    show spanTo (str "</string>") (c :: (cs ++ (str "</string>" ++ r)))
      = some ((c :: cs).length + 9)
    rw [spanTo_cons_neg (show pfxOf (str "</string>")
        (c :: (cs ++ (str "</string>" ++ r))) = false from close_no_straddle h),
      ih (fun hi => h (List.infix_cons hi))]
    rfl

theorem getD_append_last {A r : Text} {n : Nat} {d e : Char}
    (hl : A.length = n) (hlast : A.getLast? = some e) (hn : 1 ≤ n) :
    (A ++ r).getD (n - 1) d = e := by
  unfold List.getD
  rw [List.get?_eq_getElem?, List.getElem?_append_left (by omega : n - 1 < A.length)]
  rw [show n - 1 = A.length - 1 from by omega]
  rw [← List.getLast?_eq_getElem?, hlast]
  rfl

/-- C7: a markup field of the form
`<string name="accessibility_service_description">...</string>` (and likewise
the `app_name` field) has its entire span up to the first closing tag
replaced with the configured value, whatever the original content — across
line breaks included — for every preceding character and continuation. -/
theorem C7_tag_span_fully_replaced :
    ∀ (prev : Option Char) (mid r : Text), ¬ str "</string>" <:+: mid →
    (subFrom accRule prev (openAcc ++ (mid ++ (str "</string>" ++ r)))
        = openAcc ++ (str "Made by Todd" ++ (str "</string>" ++
            subFrom accRule (some '>') r))) ∧
    (subFrom appRule prev (openApp ++ (mid ++ (str "</string>" ++ r)))
        = openApp ++ (str "ToddDesk" ++ (str "</string>" ++
            subFrom appRule (some '>') r))) := by
  intro prev mid r h
  constructor
  · have hm : matchAt accRule prev ('<' ::
        (str "string name=\"accessibility_service_description\">" ++
          (mid ++ (str "</string>" ++ r))))
        = some (49 + (mid.length + 9),
            str "<string name=\"accessibility_service_description\">Made by Todd</string>") := by
      rw [show matchAt accRule prev ('<' ::
          (str "string name=\"accessibility_service_description\">" ++
            (mid ++ (str "</string>" ++ r))))
          = match spanTo (str "</string>") (mid ++ (str "</string>" ++ r)) with
            | some m => some (49 + m,
                str "<string name=\"accessibility_service_description\">Made by Todd</string>")
            | none => none from rfl,
        spanTo_first h]
    show subFrom accRule prev ('<' ::
        (str "string name=\"accessibility_service_description\">" ++
          (mid ++ (str "</string>" ++ r)))) = _
    rw [subFrom_cons_some hm (by omega)]
    have hsplit : (openAcc ++ (mid ++ str "</string>")) ++ r = '<' ::
        (str "string name=\"accessibility_service_description\">" ++
          (mid ++ (str "</string>" ++ r))) := by
      rw [List.append_assoc, List.append_assoc]
      rfl
    have hlen : (openAcc ++ (mid ++ str "</string>")).length = 49 + (mid.length + 9) := by
      simp only [List.length_append]
      rw [show openAcc.length = 49 from rfl, show (str "</string>").length = 9 from rfl]
    rw [← hsplit, List.drop_left' hlen,
      getD_append_last hlen (by simp only [List.getLast?_append]; rfl) (by omega)]
    rfl
  · have hm : matchAt appRule prev ('<' ::
        (str "string name=\"app_name\">" ++ (mid ++ (str "</string>" ++ r))))
        = some (24 + (mid.length + 9),
            str "<string name=\"app_name\">ToddDesk</string>") := by
      rw [show matchAt appRule prev ('<' ::
          (str "string name=\"app_name\">" ++ (mid ++ (str "</string>" ++ r))))
          = match spanTo (str "</string>") (mid ++ (str "</string>" ++ r)) with
            | some m => some (24 + m, str "<string name=\"app_name\">ToddDesk</string>")
            | none => none from rfl,
        spanTo_first h]
    show subFrom appRule prev ('<' ::
        (str "string name=\"app_name\">" ++ (mid ++ (str "</string>" ++ r)))) = _
    rw [subFrom_cons_some hm (by omega)]
    have hsplit : (openApp ++ (mid ++ str "</string>")) ++ r = '<' ::
        (str "string name=\"app_name\">" ++ (mid ++ (str "</string>" ++ r))) := by
      rw [List.append_assoc, List.append_assoc]
      rfl
    have hlen : (openApp ++ (mid ++ str "</string>")).length = 24 + (mid.length + 9) := by
      simp only [List.length_append]
      rw [show openApp.length = 24 from rfl, show (str "</string>").length = 9 from rfl]
    rw [← hsplit, List.drop_left' hlen,
      getD_append_last hlen (by simp only [List.getLast?_append]; rfl) (by omega)]
    rfl

/-- C7 witness: a multi-line span is fully replaced in a concrete text. -/
theorem C7_witness :
    subFrom accRule none (openAcc ++ (str "Old\nContent" ++ (str "</string>" ++ str " tail")))
      = openAcc ++ (str "Made by Todd" ++ (str "</string>" ++
          subFrom accRule (some '>') (str " tail"))) :=
  (C7_tag_span_fully_replaced none (str "Old\nContent") (str " tail") (by decide)).1

/-! ## Native-library protection lemmas -/

theorem applyRule_libvar (s : Text) :
    applyRule ⟨Pat.lit (str "lib" ++ s ++ str ".so"), str "librustdesk.so"⟩
      (str "librustdesk.so") = str "librustdesk.so" := by
  by_cases hp : pfxOf (str "lib" ++ s ++ str ".so") (str "librustdesk.so") = true
  · have hs : s = str "rustdesk" := by
      have h1 : (str "lib" ++ s ++ str ".so") <+: str "librustdesk.so" := pfxOf_iff.mp hp
      rw [List.append_assoc,
        show str "librustdesk.so" = str "lib" ++ str "rustdesk.so" from rfl] at h1
      have h2 : s ++ str ".so" <+: str "rustdesk.so" :=
        (List.prefix_append_right_inj _).mp h1
      have hlen : s.length ≤ 8 := by
        have := h2.length_le
        rw [show (str "rustdesk.so").length = 11 from rfl] at this
        rw [List.length_append, show (str ".so").length = 3 from rfl] at this
        omega
      have heq : s ++ str ".so" = (str "rustdesk.so").take (s.length + 3) := by
        have := List.prefix_iff_eq_take.mp h2
        rwa [List.length_append, show (str ".so").length = 3 from rfl] at this
      have hk : s.length = 0 ∨ s.length = 1 ∨ s.length = 2 ∨ s.length = 3 ∨
          s.length = 4 ∨ s.length = 5 ∨ s.length = 6 ∨ s.length = 7 ∨
          s.length = 8 := by omega
      rcases hk with hk | hk | hk | hk | hk | hk | hk | hk | hk <;> rw [hk] at heq
      · exact absurd (List.append_inj'
          (heq.trans (show (str "rustdesk.so").take (0 + 3) = str "" ++ str "rus" from rfl))
          rfl).2 (by decide)
      · exact absurd (List.append_inj'
          (heq.trans (show (str "rustdesk.so").take (1 + 3) = str "r" ++ str "ust" from rfl))
          rfl).2 (by decide)
      · exact absurd (List.append_inj'
          (heq.trans (show (str "rustdesk.so").take (2 + 3) = str "ru" ++ str "std" from rfl))
          rfl).2 (by decide)
      · exact absurd (List.append_inj'
          (heq.trans (show (str "rustdesk.so").take (3 + 3) = str "rus" ++ str "tde" from rfl))
          rfl).2 (by decide)
      · exact absurd (List.append_inj'
          (heq.trans (show (str "rustdesk.so").take (4 + 3) = str "rust" ++ str "des" from rfl))
          rfl).2 (by decide)
      · exact absurd (List.append_inj'
          (heq.trans (show (str "rustdesk.so").take (5 + 3) = str "rustd" ++ str "esk" from rfl))
          rfl).2 (by decide)
      · exact absurd (List.append_inj'
          (heq.trans (show (str "rustdesk.so").take (6 + 3) = str "rustde" ++ str "sk." from rfl))
          rfl).2 (by decide)
      · exact absurd (List.append_inj'
          (heq.trans (show (str "rustdesk.so").take (7 + 3) = str "rustdes" ++ str "k.s" from rfl))
          rfl).2 (by decide)
      · exact (List.append_inj'
          (heq.trans (show (str "rustdesk.so").take (8 + 3)
            = str "rustdesk" ++ str ".so" from rfl)) rfl).1
    subst hs
    decide
  · have hp' : pfxOf (str "lib" ++ s ++ str ".so") (str "librustdesk.so") = false :=
      Bool.eq_false_iff.mpr hp
    have hm0 : matchAt ⟨Pat.lit (str "lib" ++ s ++ str ".so"), str "librustdesk.so"⟩
        none ('l' :: str "ibrustdesk.so") = none := by
      simp only [matchAt]
      rw [show pfxOf (str "lib" ++ s ++ str ".so") ('l' :: str "ibrustdesk.so")
        = pfxOf (str "lib" ++ s ++ str ".so") (str "librustdesk.so") from rfl, hp',
        Bool.and_false]
      rfl
    show subFrom ⟨Pat.lit (str "lib" ++ s ++ str ".so"), str "librustdesk.so"⟩
      none ('l' :: str "ibrustdesk.so") = str "librustdesk.so"
    rw [subFrom_cons_none hm0, subFrom_id_of_no_frame ?hnof]
    case hnof =>
      intro hi
      have hmem : 'l' ∈ str "ibrustdesk.so" := infix_head_mem
        (show 'l' :: ((str "ib" ++ s) ++ str ".so") <:+: str "ibrustdesk.so" from hi)
      exact absurd hmem (by decide)
    rfl

set_option maxRecDepth 10000 in
/-- C2 counterexample: the protection is not maintained for every
configuration — with the old app name set to `rustdesk` the unscoped
app-name substitution rewrites the load-by-name argument, and no later rule
restores it. -/
theorem C2_counterexample :
    applyRules (build_rules c2cfg) (str "System.loadLibrary(\"rustdesk\")")
      ≠ str "System.loadLibrary(\"rustdesk\")" := by decide

theorem applyRule_no_hit (r : Rule) (t : Text) (h : ¬ r.pat.frame <:+: t) :
    applyRule r t = t := applyRule_id_of_no_frame h

theorem applyRule_libvar_other (s : Text) (t : Text) (h : ¬ str ".so" <:+: t) :
    applyRule ⟨Pat.lit (str "lib" ++ s ++ str ".so"), str "librustdesk.so"⟩ t = t := by
  apply applyRule_id_of_no_frame
  intro hi
  apply h
  apply List.IsInfix.trans ?_ hi
  show str ".so" <:+: (str "lib" ++ s ++ str ".so")
  exact ⟨str "lib" ++ s, [], by rw [List.append_nil]⟩

theorem applyRule_loadLib_eval (s : Text) :
    applyRule ⟨Pat.loadLib [str "rustdesk", s, str "rustdesk", str "todddesk"],
        str "System.loadLibrary(\"rustdesk\")"⟩
      (str "System.loadLibrary(\"rustdesk\")")
      = str "System.loadLibrary(\"rustdesk\")" := by
  have hm : matchAt ⟨Pat.loadLib [str "rustdesk", s, str "rustdesk", str "todddesk"],
      str "System.loadLibrary(\"rustdesk\")"⟩ none
      ('S' :: str "ystem.loadLibrary(\"rustdesk\")")
      = some (30, str "System.loadLibrary(\"rustdesk\")") := rfl
  show subFrom ⟨Pat.loadLib [str "rustdesk", s, str "rustdesk", str "todddesk"],
      str "System.loadLibrary(\"rustdesk\")"⟩ none
      ('S' :: str "ystem.loadLibrary(\"rustdesk\")")
    = str "System.loadLibrary(\"rustdesk\")"
  rw [subFrom_cons_some hm (by omega)]
  rfl

theorem build_rules_scheme (s : Text) :
    build_rules { defaultCfg with new_scheme := s } =
    [⟨Pat.lit (str "com.carriez.flutter_hbb"), str "com.celonis.work"⟩,
     ⟨Pat.lit (str "RustDesk"), str "ToddDesk"⟩,
     ⟨Pat.tag (str "accessibility_service_description"), str "Made by Todd"⟩,
     ⟨Pat.tag (str "app_name"), str "ToddDesk"⟩,
     ⟨Pat.lit (str "android:name=\".InputService\""), str "android:name=\".ToddService\""⟩,
     ⟨Pat.word (str "InputService"), str "ToddService"⟩,
     ⟨Pat.lit (str "RustDesk Input"), str "ToddDesk Input"⟩,
     ⟨Pat.lit (str "RustDesk Service"), str "ToddDesk Service"⟩,
     ⟨Pat.lit (str "RustDesk Service Channel"), str "ToddDesk Service Channel"⟩,
     ⟨Pat.lit (str "Show RustDesk"), str "Show ToddDesk"⟩,
     ⟨Pat.logTag, str "\"Todd service\""⟩,
     ⟨Pat.word (str "idShowRustDesk"), str "idShowToddDesk"⟩,
     ⟨Pat.lit (str "android:scheme=\"rustdesk\""), str "android:scheme=\"" ++ s ++ str "\""⟩,
     ⟨Pat.lit (str "rustdesk://"), s ++ str "://"⟩,
     ⟨Pat.loadLib [str "rustdesk", s, str "rustdesk", str "todddesk"],
       str "System.loadLibrary(\"rustdesk\")"⟩,
     ⟨Pat.lit (str "lib" ++ s ++ str ".so"), str "librustdesk.so"⟩,
     ⟨Pat.lit (str "libtodddesk.so"), str "librustdesk.so"⟩] := rfl

set_option maxRecDepth 10000 in
/-- C2 amended: under the default configuration with the new scheme replaced
by an arbitrary string, rewriting the canonical native-library filename
`librustdesk.so` and the canonical call `System.loadLibrary("rustdesk")`
leaves both texts exactly unchanged, whatever the new scheme is. -/
theorem C2_native_protected_for_all_schemes (s : Text) :
    applyRules (build_rules { defaultCfg with new_scheme := s })
        (str "librustdesk.so") = str "librustdesk.so" ∧
    applyRules (build_rules { defaultCfg with new_scheme := s })
        (str "System.loadLibrary(\"rustdesk\")")
      = str "System.loadLibrary(\"rustdesk\")" := by
  rw [build_rules_scheme s]
  constructor
  · simp only [applyRules, List.foldl_cons, List.foldl_nil]
    rw [applyRule_no_hit ⟨Pat.lit (str "com.carriez.flutter_hbb"), str "com.celonis.work"⟩
          (str "librustdesk.so") (by decide),
        applyRule_no_hit ⟨Pat.lit (str "RustDesk"), str "ToddDesk"⟩
          (str "librustdesk.so") (by decide),
        applyRule_no_hit ⟨Pat.tag (str "accessibility_service_description"), str "Made by Todd"⟩
          (str "librustdesk.so") (by decide),
        applyRule_no_hit ⟨Pat.tag (str "app_name"), str "ToddDesk"⟩
          (str "librustdesk.so") (by decide),
        applyRule_no_hit ⟨Pat.lit (str "android:name=\".InputService\""),
          str "android:name=\".ToddService\""⟩ (str "librustdesk.so") (by decide),
        applyRule_no_hit ⟨Pat.word (str "InputService"), str "ToddService"⟩
          (str "librustdesk.so") (by decide),
        applyRule_no_hit ⟨Pat.lit (str "RustDesk Input"), str "ToddDesk Input"⟩
          (str "librustdesk.so") (by decide),
        applyRule_no_hit ⟨Pat.lit (str "RustDesk Service"), str "ToddDesk Service"⟩
          (str "librustdesk.so") (by decide),
        applyRule_no_hit ⟨Pat.lit (str "RustDesk Service Channel"),
          str "ToddDesk Service Channel"⟩ (str "librustdesk.so") (by decide),
        applyRule_no_hit ⟨Pat.lit (str "Show RustDesk"), str "Show ToddDesk"⟩
          (str "librustdesk.so") (by decide),
        applyRule_no_hit ⟨Pat.logTag, str "\"Todd service\""⟩
          (str "librustdesk.so") (by decide),
        applyRule_no_hit ⟨Pat.word (str "idShowRustDesk"), str "idShowToddDesk"⟩
          (str "librustdesk.so") (by decide),
        applyRule_no_hit ⟨Pat.lit (str "android:scheme=\"rustdesk\""),
          str "android:scheme=\"" ++ s ++ str "\""⟩ (str "librustdesk.so")
          (by show ¬ str "android:scheme=\"rustdesk\"" <:+: str "librustdesk.so"; decide),
        applyRule_no_hit ⟨Pat.lit (str "rustdesk://"), s ++ str "://"⟩
          (str "librustdesk.so")
          (by show ¬ str "rustdesk://" <:+: str "librustdesk.so"; decide),
        applyRule_no_hit ⟨Pat.loadLib [str "rustdesk", s, str "rustdesk", str "todddesk"],
          str "System.loadLibrary(\"rustdesk\")"⟩ (str "librustdesk.so")
          (by show ¬ str "System.loadLibrary(\"" <:+: str "librustdesk.so"; decide),
        applyRule_libvar s,
        applyRule_no_hit ⟨Pat.lit (str "libtodddesk.so"), str "librustdesk.so"⟩
          (str "librustdesk.so") (by decide)]
  · simp only [applyRules, List.foldl_cons, List.foldl_nil]
    rw [applyRule_no_hit ⟨Pat.lit (str "com.carriez.flutter_hbb"), str "com.celonis.work"⟩
          (str "System.loadLibrary(\"rustdesk\")") (by decide),
        applyRule_no_hit ⟨Pat.lit (str "RustDesk"), str "ToddDesk"⟩
          (str "System.loadLibrary(\"rustdesk\")") (by decide),
        applyRule_no_hit ⟨Pat.tag (str "accessibility_service_description"), str "Made by Todd"⟩
          (str "System.loadLibrary(\"rustdesk\")") (by decide),
        applyRule_no_hit ⟨Pat.tag (str "app_name"), str "ToddDesk"⟩
          (str "System.loadLibrary(\"rustdesk\")") (by decide),
        applyRule_no_hit ⟨Pat.lit (str "android:name=\".InputService\""),
          str "android:name=\".ToddService\""⟩ (str "System.loadLibrary(\"rustdesk\")") (by decide),
        applyRule_no_hit ⟨Pat.word (str "InputService"), str "ToddService"⟩
          (str "System.loadLibrary(\"rustdesk\")") (by decide),
        applyRule_no_hit ⟨Pat.lit (str "RustDesk Input"), str "ToddDesk Input"⟩
          (str "System.loadLibrary(\"rustdesk\")") (by decide),
        applyRule_no_hit ⟨Pat.lit (str "RustDesk Service"), str "ToddDesk Service"⟩
          (str "System.loadLibrary(\"rustdesk\")") (by decide),
        applyRule_no_hit ⟨Pat.lit (str "RustDesk Service Channel"),
          str "ToddDesk Service Channel"⟩ (str "System.loadLibrary(\"rustdesk\")") (by decide),
        applyRule_no_hit ⟨Pat.lit (str "Show RustDesk"), str "Show ToddDesk"⟩
          (str "System.loadLibrary(\"rustdesk\")") (by decide),
        applyRule_no_hit ⟨Pat.logTag, str "\"Todd service\""⟩
          (str "System.loadLibrary(\"rustdesk\")") (by decide),
        applyRule_no_hit ⟨Pat.word (str "idShowRustDesk"), str "idShowToddDesk"⟩
          (str "System.loadLibrary(\"rustdesk\")") (by decide),
        applyRule_no_hit ⟨Pat.lit (str "android:scheme=\"rustdesk\""),
          str "android:scheme=\"" ++ s ++ str "\""⟩
          (str "System.loadLibrary(\"rustdesk\")")
          (by show ¬ str "android:scheme=\"rustdesk\"" <:+:
                str "System.loadLibrary(\"rustdesk\")"; decide),
        applyRule_no_hit ⟨Pat.lit (str "rustdesk://"), s ++ str "://"⟩
          (str "System.loadLibrary(\"rustdesk\")")
          (by show ¬ str "rustdesk://" <:+: str "System.loadLibrary(\"rustdesk\")"; decide),
        applyRule_loadLib_eval s,
        applyRule_libvar_other s (str "System.loadLibrary(\"rustdesk\")") (by decide),
        applyRule_no_hit ⟨Pat.lit (str "libtodddesk.so"), str "librustdesk.so"⟩
          (str "System.loadLibrary(\"rustdesk\")") (by decide)]

/-! ## Directory-migrator lemmas -/

theorem fileContent_fold_untouched (dest : FSFile → List Text) {q : List Text} :
    ∀ (src fs : List FSFile), (∀ g ∈ src, dest g ≠ q) →
      fileContent (src.foldl (fun acc f => writeFile acc (dest f) f.content) fs) q
        = fileContent fs q := by
  intro src
  induction src with
  | nil => intro fs h; rfl
  | cons g src ih =>
    intro fs h
    rw [List.foldl_cons, ih _ (fun x hx => h x (List.mem_cons_of_mem g hx)),
      fileContent_writeFile_ne (h g (List.mem_cons_self g src))]

theorem fileContent_fold_writes (dest : FSFile → List Text) :
    ∀ (src fs : List FSFile) (f : FSFile), f ∈ src → (src.map dest).Nodup →
      fileContent (src.foldl (fun acc g => writeFile acc (dest g) g.content) fs) (dest f)
        = some f.content := by
  intro src
  induction src with
  | nil =>
    intro fs f hf _
    exact absurd hf (by simp)
  | cons g src ih =>
    intro fs f hf hnd
    rw [List.map_cons, List.nodup_cons] at hnd
    rw [List.foldl_cons]
    rcases List.mem_cons.mp hf with rfl | hm
    · rw [fileContent_fold_untouched dest _ _
        (fun x hx hex => hnd.1 (by rw [← hex]; exact List.mem_map_of_mem dest hx))]
      exact fileContent_writeFile_self
    · exact ih _ f hm hnd.2

theorem dest_not_under_old {old new rel : List Text}
    (h1 : ¬ old <+: new) (h2 : ¬ new <+: old) : ¬ old <+: new ++ rel := by
  intro h
  rcases Nat.le_total old.length new.length with hle | hle
  · exact h1 (List.prefix_of_prefix_length_le h (List.prefix_append _ _) hle)
  · exact h2 (List.prefix_of_prefix_length_le (List.prefix_append _ _) h hle)

/-- C8: if the old-package directory does not exist the migrator records a
note and leaves the filesystem unchanged; if it exists and the destination
also exists, every file of the source subtree ends up copied at its
destination path (relative sub-paths preserved) with identical content, and
the whole source subtree is deleted — the definition copies everything
before the source deletion begins. -/
theorem C8_migrator_note_and_merge (cfg : PatchConfig) (fs : List FSFile)
    (notes : List Text) :
    (¬ dirUnder (oldKotlinDir cfg) fs →
      ∃ note, move_kotlin_dir cfg fs notes = (fs, notes ++ [note])) ∧
    ((fs.map (·.path)).Nodup →
      dirUnder (newKotlinDir cfg) fs →
      ¬ oldKotlinDir cfg <+: newKotlinDir cfg →
      ¬ newKotlinDir cfg <+: oldKotlinDir cfg →
      (∀ f ∈ fs, oldKotlinDir cfg <+: f.path →
        fileContent (move_kotlin_dir cfg fs notes).1
            (newKotlinDir cfg ++ f.path.drop (oldKotlinDir cfg).length)
          = some f.content) ∧
      (∀ g ∈ (move_kotlin_dir cfg fs notes).1, ¬ oldKotlinDir cfg <+: g.path)) := by
  constructor
  · intro hold
    unfold move_kotlin_dir
    by_cases hk : dirUnder kotlinRoot fs
    · rw [if_neg (not_not_intro hk), if_pos hold]
      exact ⟨_, rfl⟩
    · rw [if_pos hk]
      exact ⟨_, rfl⟩
  · intro hnd hnew hd1 hd2
    have hkot : dirUnder kotlinRoot fs := by
      obtain ⟨f, hf, hp⟩ := hnew
      exact ⟨f, hf, (List.prefix_append kotlinRoot (pkgSegs cfg.new_package)).trans hp⟩
    by_cases holdd : dirUnder (oldKotlinDir cfg) fs
    · have hmove : move_kotlin_dir cfg fs notes =
          ((((fs.filter fun f => decide (oldKotlinDir cfg <+: f.path)).foldl
              (fun acc f =>
                writeFile acc
                  (newKotlinDir cfg ++ f.path.drop (oldKotlinDir cfg).length)
                  f.content) fs).filter
            fun f => ! decide (oldKotlinDir cfg <+: f.path)),
           notes ++ [str "New kotlin dir exists, merge files",
             str "Deleted old kotlin dir"]) := by
        unfold move_kotlin_dir
        rw [if_neg (not_not_intro hkot), if_neg (not_not_intro holdd), if_pos hnew]
      have hfs_nodup : fs.Nodup := List.Nodup.of_map _ hnd
      have hsrc_nodup : (fs.filter fun f =>
          decide (oldKotlinDir cfg <+: f.path)).Nodup := hfs_nodup.filter _
      have hmapdest : ((fs.filter fun f => decide (oldKotlinDir cfg <+: f.path)).map
          fun g => newKotlinDir cfg ++ g.path.drop (oldKotlinDir cfg).length).Nodup := by
        apply List.Nodup.map_on ?_ hsrc_nodup
        intro x hx y hy hxy
        have hxp : oldKotlinDir cfg <+: x.path := by
          have := List.of_mem_filter hx
          simpa using this
        have hyp : oldKotlinDir cfg <+: y.path := by
          have := List.of_mem_filter hy
          simpa using this
        have hdrop : x.path.drop (oldKotlinDir cfg).length
            = y.path.drop (oldKotlinDir cfg).length := List.append_cancel_left hxy
        have hxe := List.prefix_iff_eq_append.mp hxp
        have hye := List.prefix_iff_eq_append.mp hyp
        have hpaths : x.path = y.path := by
          rw [← hxe, ← hye, hdrop]
        exact List.inj_on_of_nodup_map hnd (List.mem_of_mem_filter hx)
          (List.mem_of_mem_filter hy) hpaths
      constructor
      · intro f hf hp
        rw [hmove]
        have hdest : ¬ oldKotlinDir cfg <+:
            newKotlinDir cfg ++ f.path.drop (oldKotlinDir cfg).length :=
          dest_not_under_old hd1 hd2
        rw [fileContent_filter_of_kept (fun x hx => by rw [hx]; simpa using hdest)]
        exact fileContent_fold_writes
          (fun g => newKotlinDir cfg ++ g.path.drop (oldKotlinDir cfg).length)
          (fs.filter fun f => decide (oldKotlinDir cfg <+: f.path)) fs f
          (List.mem_filter.mpr ⟨hf, by simpa using hp⟩) hmapdest
      · intro g hg
        rw [hmove] at hg
        have := List.of_mem_filter hg
        simpa using this
    · have hmove : ∃ note, move_kotlin_dir cfg fs notes = (fs, notes ++ [note]) := by
        unfold move_kotlin_dir
        rw [if_neg (not_not_intro hkot), if_pos holdd]
        exact ⟨_, rfl⟩
      obtain ⟨note, hmove⟩ := hmove
      constructor
      · intro f hf hp
        exact absurd ⟨f, hf, hp⟩ holdd
      · intro g hg
        rw [hmove] at hg
        intro hp
        exact holdd ⟨g, hg, hp⟩

/-- C8 witness: with no old-package directory the migrator is a no-op plus a
note, and in a concrete merge the source file is found at its destination
path with its original content. -/
theorem C8_witness :
    (∃ note, move_kotlin_dir defaultCfg [⟨[str "flutter"], str "z"⟩] []
        = ([⟨[str "flutter"], str "z"⟩], [] ++ [note])) ∧
    fileContent (move_kotlin_dir defaultCfg fsM8 []).1
        (newKotlinDir defaultCfg ++
          ([str "flutter", str "android", str "app", str "src", str "main",
            str "kotlin", str "com", str "carriez", str "flutter_hbb",
            str "M.kt"]).drop (oldKotlinDir defaultCfg).length)
      = some (str "a") := by
  constructor
  · exact (C8_migrator_note_and_merge defaultCfg
      [⟨[str "flutter"], str "z"⟩] []).1 (by decide)
  · exact ((C8_migrator_note_and_merge defaultCfg fsM8 []).2 (by decide) (by decide)
      (by decide) (by decide)).1
      ⟨[str "flutter", str "android", str "app", str "src", str "main",
        str "kotlin", str "com", str "carriez", str "flutter_hbb", str "M.kt"],
       str "a"⟩ (by decide) (by decide)

end Patch
